import Mathlib

/-!
Verification of the maze-graph / entity-movement core of the Py-Man
repository (src/game/nodes.py, src/game/entity.py, src/game/pacman.py,
src/game/pauser.py) against its natural-language specification.

The Python code is shallowly embedded: every class becomes a structure,
every method a pure function (mutation becomes explicit state passing),
and fallible operations return `Option`.  Machine floats are modelled as
rationals (`ℚ`); the game never relies on float rounding.

The repository imports `constants.py` and `vector.py`, which are not part
of the sources provided under src/.  Those two leaf modules are modelled
from the spec (see the doc comments on `UP`..`PORTAL`, `TILEWIDTH`,
`Vector2`); everything else is translated directly from the Python files.
-/

namespace PyMan

/-- Modelled from the spec: `constants.py` is not under src/.  Spec §6:
tile sizes scale tile coordinates to pixel keys; the standard value 16 is
used (only injectivity of the scaling matters for the theorems below). -/
def TILEWIDTH : Int := 16

/-- Modelled from the spec: `constants.py` is not under src/. -/
def TILEHEIGHT : Int := 16

/-- Modelled from the spec: `constants.py` is not under src/.  Spec §3:
directions are numerically encoded so that UP/DOWN and LEFT/RIGHT are
additive inverses (`direction * -1` yields the opposite) and STOP, PORTAL
are sentinels. -/
def UP : Int := 1

/-- Modelled from the spec: `constants.py` is not under src/. -/
def DOWN : Int := -1

/-- Modelled from the spec: `constants.py` is not under src/. -/
def LEFT : Int := 2

/-- Modelled from the spec: `constants.py` is not under src/. -/
def RIGHT : Int := -2

/-- Modelled from the spec: `constants.py` is not under src/. -/
def STOP : Int := 0

/-- Modelled from the spec: `constants.py` is not under src/. -/
def PORTAL : Int := 3

/-- Modelled from the spec: `constants.py` is not under src/.  Entity-class
tags stored in the per-node access lists (PACMAN, BLINKY, PINKY, INKY,
CLYDE, FRUIT); only their distinctness matters. -/
def PACMAN : Nat := 0

/-- Modelled from the spec: `constants.py` is not under src/. -/
def BLINKY : Nat := 1

/-- Modelled from the spec: `constants.py` is not under src/. -/
def PINKY : Nat := 2

/-- Modelled from the spec: `constants.py` is not under src/. -/
def INKY : Nat := 3

/-- Modelled from the spec: `constants.py` is not under src/. -/
def CLYDE : Nat := 4

/-- Modelled from the spec: `constants.py` is not under src/. -/
def FRUIT : Nat := 5

/-- Modelled from the spec: `vector.py` is not under src/.  Spec §2:
Vector2 is 2D floating-point arithmetic with `magnitudeSquared`;
components are modelled as rationals. -/
structure Vector2 where
  x : ℚ
  y : ℚ
deriving DecidableEq

instance : Add Vector2 := ⟨fun a b => ⟨a.x + b.x, a.y + b.y⟩⟩

instance : Sub Vector2 := ⟨fun a b => ⟨a.x - b.x, a.y - b.y⟩⟩

/-- Modelled from the spec: componentwise scaling (`Vector2.__mul__`). -/
def Vector2.scale (v : Vector2) (s : ℚ) : Vector2 := ⟨v.x * s, v.y * s⟩

/-- Modelled from the spec: componentwise division (`Vector2.__div__`). -/
def Vector2.div (v : Vector2) (s : ℚ) : Vector2 := ⟨v.x / s, v.y / s⟩

/-- Modelled from the spec: `magnitudeSquared` returns `x² + y²`. -/
def Vector2.magnitudeSquared (v : Vector2) : ℚ := v.x * v.x + v.y * v.y

/-- Pixel-coordinate key identifying a node in the node lookup table
(`nodes.py`, `NodeGroup.nodesLUT`). -/
abbrev Key := Int × Int

/-- Embedding of `nodes.py` `Node.__init__`: a node stores its position,
a direction-indexed table of optional neighbor references (modelled as
keys into the owning lookup table) and a direction-indexed table of
access lists.  The Python dicts hold exactly the keys UP/DOWN/LEFT/RIGHT
(plus PORTAL for neighbors); they are modelled as total functions whose
value outside those keys is never consulted by the translated code. -/
structure Node where
  position : Vector2
  neighbors : Int → Option Key
  access : Int → List Nat

/-- Default access table of `Node.__init__`: every known entity class is
allowed in each of the four cardinal directions. -/
def allNames : List Nat := [PACMAN, BLINKY, PINKY, INKY, CLYDE, FRUIT]

/-- Fresh node as built by `Node.__init__` at pixel key `k`: all
neighbors absent, all cardinal directions fully allowed. -/
def mkNode (k : Key) : Node :=
  { position := ⟨(k.1 : ℚ), (k.2 : ℚ)⟩
    neighbors := fun _ => none
    access := fun d =>
      if d = UP ∨ d = DOWN ∨ d = LEFT ∨ d = RIGHT then allNames else [] }

/-- The node lookup table `NodeGroup.nodesLUT`, modelled as a total map:
keys never inserted hold a fresh unlinked node (the Python dict raises on
them; the translated algorithms only ever read keys they inserted). -/
abbrev LUT := Key → Node

/-- Embedding of `nodes.py` `Node.deny_access` restricted to one access
list: `list.remove` deletes the first occurrence when present. -/
def denyAccessL (name : Nat) (l : List Nat) : List Nat :=
  if name ∈ l then l.erase name else l

/-- Embedding of `nodes.py` `Node.allow_access` restricted to one access
list: `list.append` adds at the end when absent. -/
def allowAccessL (name : Nat) (l : List Nat) : List Nat :=
  if name ∈ l then l else l ++ [name]

/-- Embedding of `nodes.py` `Node.deny_access` (entity argument replaced
by its `name` tag, which is all the method reads). -/
def Node.denyAccess (n : Node) (d : Int) (name : Nat) : Node :=
  { n with access := fun e => if e = d then denyAccessL name (n.access d) else n.access e }

/-- Embedding of `nodes.py` `Node.allow_access`. -/
def Node.allowAccess (n : Node) (d : Int) (name : Nat) : Node :=
  { n with access := fun e => if e = d then allowAccessL name (n.access d) else n.access e }

/-- Embedding of `pauser.py` `Pause`: `func` is the stored callback,
opaque to the timer, modelled by an arbitrary type `α`. -/
structure Pause (α : Type) where
  paused : Bool
  timer : ℚ
  pauseTime : Option ℚ
  func : Option α

/-- Embedding of `pauser.py` `Pause.__init__`. -/
def Pause.mk0 (α : Type) (paused : Bool) : Pause α :=
  { paused := paused, timer := 0, pauseTime := none, func := none }

/-- Embedding of `pauser.py` `Pause.update`: returns the new timer state
together with the method's return value (the stored callback on the
firing tick, `None` otherwise). -/
def Pause.update (p : Pause α) (dt : ℚ) : Pause α × Option α :=
  match p.pauseTime with
  | some pt =>
    let t := p.timer + dt
    if t ≥ pt then
      ({ p with timer := 0, paused := false, pauseTime := none }, p.func)
    else
      ({ p with timer := t }, none)
  | none => (p, none)

/-- Embedding of `pauser.py` `Pause.flip`. -/
def Pause.flip (p : Pause α) : Pause α := { p with paused := !p.paused }

/-- Embedding of `pauser.py` `Pause.setPause`. -/
def Pause.setPause (p : Pause α) (pauseTime : Option ℚ) (func : Option α) : Pause α :=
  Pause.flip { p with timer := 0, func := func, pauseTime := pauseTime }

/-- Embedding of the `Entity.directions` dictionary (`entity.py`):
unit vectors for the four cardinal directions and zero for STOP. -/
def dirVec (d : Int) : Vector2 :=
  if d = UP then ⟨0, -1⟩
  else if d = DOWN then ⟨0, 1⟩
  else if d = LEFT then ⟨-1, 0⟩
  else if d = RIGHT then ⟨1, 0⟩
  else ⟨0, 0⟩

/-- Embedding of `entity.py` `Entity` movement state.  `node` and
`target` are keys into the graph's lookup table; `target` is optional
because `Entity.overshotTarget` explicitly guards against an unset
target.  Rendering-only attributes (radius, color, visible, image) are
omitted; `goal`/`directionMethod` are passed explicitly where used. -/
structure Entity where
  name : Nat
  direction : Int
  speed : ℚ
  collideRadius : ℚ
  disablePortal : Bool
  node : Key
  startNode : Key
  target : Option Key
  position : Vector2

/-- Embedding of `entity.py` `Entity.setPosition`. -/
def Entity.setPosition (g : LUT) (e : Entity) : Entity :=
  { e with position := (g e.node).position }

/-- Embedding of `entity.py` `Entity.setSpeed`. -/
def Entity.setSpeed (e : Entity) (s : ℚ) : Entity :=
  { e with speed := s * (TILEWIDTH : ℚ) / 16 }

/-- Embedding of `entity.py` `Entity.setStartNode` (for a non-None
starting node). -/
def Entity.setStartNode (g : LUT) (e : Entity) (k : Key) : Entity :=
  Entity.setPosition g { e with node := k, startNode := k, target := some k }

/-- Embedding of `entity.py` `Entity.__init__` bound to start node `k`:
direction STOP, speed set via `setSpeed(100)`, collide radius 5, portals
enabled, then `setStartNode(node)`. -/
def mkEntity (g : LUT) (name : Nat) (k : Key) : Entity :=
  Entity.setStartNode g
    (Entity.setSpeed
      { name := name, direction := STOP, speed := 0, collideRadius := 5
        disablePortal := false, node := k, startNode := k, target := some k
        position := ⟨0, 0⟩ } 100) k

/-- Embedding of `entity.py` `Entity.validDirection`: the direction is
not STOP, the entity's name tag is in the node's access list for that
direction, and the node has a neighbor in that direction. -/
def Entity.validDirection (g : LUT) (e : Entity) (d : Int) : Bool :=
  decide (d ≠ STOP) && decide (e.name ∈ (g e.node).access d)
    && ((g e.node).neighbors d).isSome

/-- Embedding of `entity.py` `Entity.getNewTarget`: the neighbor in the
given direction when the direction is valid (validity guarantees the
neighbor exists, so the `getD` default is never consulted), otherwise
the current node. -/
def Entity.getNewTarget (g : LUT) (e : Entity) (d : Int) : Key :=
  if Entity.validDirection g e d then ((g e.node).neighbors d).getD e.node
  else e.node

/-- Embedding of `entity.py` `Entity.overshotTarget`: false when the
target is unset, otherwise compares the squared distance travelled from
`node` against the squared length of the `node → target` segment
(`node2Self >= node2Target`). -/
def Entity.overshotTarget (g : LUT) (e : Entity) : Bool :=
  match e.target with
  | some t =>
    let vec1 := (g t).position - (g e.node).position
    let vec2 := e.position - (g e.node).position
    decide (vec2.magnitudeSquared ≥ vec1.magnitudeSquared)
  | none => false

/-- Embedding of `entity.py` `Entity.reverseDirection`: negate the
direction and swap `node` and `target`.  When `target` is unset the
Python swap would leave `node = None`, a state outside this model (any
later node access crashes), so that case is `none`. -/
def Entity.reverseDirection (e : Entity) : Option Entity :=
  match e.target with
  | some t => some { e with direction := e.direction * -1, node := t, target := some e.node }
  | none => none

/-- Embedding of `entity.py` `Entity.oppositeDirection`. -/
def Entity.oppositeDirection (e : Entity) (d : Int) : Bool :=
  decide (d ≠ STOP) && decide (d = e.direction * -1)

/-- Embedding of `entity.py` `Entity.validDirections`: collect the
cardinal directions (in the order UP, DOWN, LEFT, RIGHT) that are valid
and not the reverse of the current direction; if none qualify, the
reverse of the current direction is the forced single candidate. -/
def Entity.validDirections (g : LUT) (e : Entity) : List Int :=
  let ds := [UP, DOWN, LEFT, RIGHT].filter
    (fun d => Entity.validDirection g e d && decide (d ≠ e.direction * -1))
  if ds = [] then [e.direction * -1] else ds

/-- Embedding of `entity.py` `Entity.setBetweenNodes`. -/
def Entity.setBetweenNodes (g : LUT) (e : Entity) (d : Int) : Entity :=
  match (g e.node).neighbors d with
  | some t =>
    { e with target := some t
             position := ((g e.node).position + (g t).position).div 2 }
  | none => e

/-- The shared movement line `self.position += self.directions
[self.direction] * self.speed * dt` of both update methods. -/
def Entity.move (e : Entity) (dt : ℚ) : Entity :=
  { e with position := e.position + ((dirVec e.direction).scale e.speed).scale dt }

/-- Embedding of `entity.py` `Entity.update`.  The pluggable direction
chooser `self.directionMethod` (random or goal-seeking) is passed as the
function `policy`.  On overshoot: adopt the target as current node, pick
a direction among `validDirections`, hop through a portal when allowed,
resolve the new target (falling back to the previous direction when the
chosen one yields no movement), and snap the position to the node. -/
def Entity.update (g : LUT) (policy : List Int → Int) (e0 : Entity) (dt : ℚ) : Entity :=
  let e1 := Entity.move e0 dt
  match e1.target with
  | none => e1
  | some tgt =>
    if Entity.overshotTarget g e1 then
      let eA := { e1 with node := tgt }
      let dir := policy (Entity.validDirections g eA)
      let eB :=
        if ¬ eA.disablePortal then
          match (g eA.node).neighbors PORTAL with
          | some pk => { eA with node := pk }
          | none => eA
        else eA
      let t1 := Entity.getNewTarget g eB dir
      let eC := { eB with target := some t1 }
      let eD :=
        if t1 ≠ eB.node then { eC with direction := dir }
        else { eC with target := some (Entity.getNewTarget g eC eC.direction) }
      Entity.setPosition g eD
    else e1

/-- Embedding of `pacman.py` `PacMan.update`.  The keyboard poll
`getValidKey` is passed in as the resolved `inputDir` (spec §6: the core
consumes one resolved direction per tick).  Unlike `Entity.update`, the
player update always takes portals, explicitly stops when blocked
(`direction = STOP` when the resolved target is the node), and reverses
mid-segment when the input opposes the current direction.  The result is
`none` exactly when `reverseDirection` hits an unset target (a state the
Python code corrupts by setting `node = None`). -/
def pacmanUpdate (g : LUT) (e0 : Entity) (inputDir : Int) (dt : ℚ) : Option Entity :=
  let e1 := Entity.move e0 dt
  match e1.target with
  | some tgt =>
    if Entity.overshotTarget g e1 then
      let eA := { e1 with node := tgt }
      let eB :=
        match (g eA.node).neighbors PORTAL with
        | some pk => { eA with node := pk }
        | none => eA
      let t1 := Entity.getNewTarget g eB inputDir
      let eC := { eB with target := some t1 }
      let eD :=
        if t1 ≠ eB.node then { eC with direction := inputDir }
        else { eC with target := some (Entity.getNewTarget g eC eC.direction) }
      let eE := if eD.target = some eD.node then { eD with direction := STOP } else eD
      some (Entity.setPosition g eE)
    else
      if Entity.oppositeDirection e1 inputDir then Entity.reverseDirection e1
      else some e1
  | none =>
    if Entity.oppositeDirection e1 inputDir then Entity.reverseDirection e1
    else some e1

/-- Embedding of `pacman.py` `PacMan.collideCheck`: compare the squared
distance between the two positions with the squared sum of the two
collision radii. -/
def Entity.collideCheck (e other : Entity) : Bool :=
  let d := e.position - other.position
  decide (d.magnitudeSquared ≤ (e.collideRadius + other.collideRadius) ^ 2)

/-- Embedding of `NodeGroup.nodeSymbols`. -/
def nodeSymbols : List Char := ['+', 'P', 'n']

/-- Embedding of `NodeGroup.pathSymbols`. -/
def pathSymbols : List Char := ['.', '-', '|', 'p']

/-- Embedding of `NodeGroup.construct_key`: scale tile coordinates to a
pixel key. -/
def constructKey (x y : Int) : Key := (x * TILEWIDTH, y * TILEHEIGHT)

/-- Pointwise update of the lookup table (`nodesLUT[k] = n`). -/
def setLUT (lut : LUT) (k : Key) (n : Node) : LUT :=
  fun e => if e = k then n else lut e

/-- Pointwise update of a node's neighbor table
(`node.neighbors[d] = v`). -/
def setNeighbor (n : Node) (d : Int) (v : Option Key) : Node :=
  { n with neighbors := fun e => if e = d then v else n.neighbors e }

/-- The atomic linking step shared by `connect_horizontally` and
`connect_vertically`: `nodesLUT[p].neighbors[dA] = c;
nodesLUT[c].neighbors[dB] = p` (with `dA, dB` instantiated to
RIGHT, LEFT respectively DOWN, UP). -/
def link (dA dB : Int) (lut : LUT) (p c : Key) : LUT :=
  let lut1 := setLUT lut p (setNeighbor (lut p) dA (some c))
  setLUT lut1 c (setNeighbor (lut1 c) dB (some p))

/-- One line of the linking scan of `connect_horizontally` /
`connect_vertically`: walk the cells keeping the pending key of the last
node symbol seen; a node symbol links pending→current and advances the
pending key, a path symbol is transparent, anything else breaks the
run. -/
def scanLine (dA dB : Int) (keyOf : Int → Key) :
    LUT → Option Key → Int → List Char → LUT
  | lut, _, _, [] => lut
  | lut, pending, i, c :: rest =>
    if c ∈ nodeSymbols then
      match pending with
      | none => scanLine dA dB keyOf lut (some (keyOf i)) (i + 1) rest
      | some p => scanLine dA dB keyOf (link dA dB lut p (keyOf i)) (some (keyOf i)) (i + 1) rest
    else if c ∈ pathSymbols then
      scanLine dA dB keyOf lut pending (i + 1) rest
    else
      scanLine dA dB keyOf lut none (i + 1) rest

/-- Line-by-line driver of the linking passes: the outer loops of
`connect_horizontally` (rows of the grid) and `connect_vertically`
(rows of the transposed grid), each line scanned with a fresh pending
key. -/
def connectLines (dA dB : Int) (keyOf2 : Int → Int → Key) :
    LUT → Int → List (List Char) → LUT
  | lut, _, [] => lut
  | lut, r, line :: rest =>
    connectLines dA dB keyOf2 (scanLine dA dB (keyOf2 r) lut none 0 line) (r + 1) rest

/-- One row of `NodeGroup.create_node_table`: insert a fresh node at the
scaled key of every node-symbol cell. -/
def createRow (xoff yoff row : Int) : LUT → Int → List Char → LUT
  | lut, _, [] => lut
  | lut, col, c :: rest =>
    let lut1 :=
      if c ∈ nodeSymbols then
        setLUT lut (constructKey (col + xoff) (row + yoff))
          (mkNode (constructKey (col + xoff) (row + yoff)))
      else lut
    createRow xoff yoff row lut1 (col + 1) rest

/-- Row driver of `NodeGroup.create_node_table`. -/
def createTableAux (xoff yoff : Int) : LUT → Int → List (List Char) → LUT
  | lut, _, [] => lut
  | lut, r, row :: rest => createTableAux xoff yoff (createRow xoff yoff r lut 0 row) (r + 1) rest

/-- Embedding of `NodeGroup.create_node_table`. -/
def createTable (xoff yoff : Int) (data : List (List Char)) (lut : LUT) : LUT :=
  createTableAux xoff yoff lut 0 data

/-- Embedding of `NodeGroup.connect_horizontally`: scan each row left to
right, pairing consecutive node cells as RIGHT/LEFT neighbors. -/
def connectHorizontally (xoff yoff : Int) (data : List (List Char)) (lut : LUT) : LUT :=
  connectLines RIGHT LEFT (fun r col => constructKey (col + xoff) (r + yoff)) lut 0 data

/-- Embedding of `NodeGroup.connect_vertically`: the same scan over the
transposed grid, pairing consecutive node cells as DOWN/UP neighbors
(the outer index is the original column). -/
def connectVertically (xoff yoff : Int) (data : List (List Char)) (lut : LUT) : LUT :=
  connectLines DOWN UP (fun c row => constructKey (c + xoff) (row + yoff)) lut 0 data.transpose

/-- The lookup table before any node is inserted: every key holds a
fresh unlinked node (see `LUT`). -/
def emptyLUT : LUT := fun k => mkNode k

/-- Embedding of the graph-building part of `NodeGroup.__init__`: vertex
creation followed by horizontal and vertical linking (no offsets), before
any portal pairing or home-area splice. -/
def buildGraph (data : List (List Char)) : LUT :=
  connectVertically 0 0 data
    (connectHorizontally 0 0 data (createTable 0 0 data emptyLUT))

/-- Directed half of the neighbor-symmetry invariant: every `dA` link
has a matching `dB` back-link. -/
def SymmDir (dA dB : Int) (lut : LUT) : Prop :=
  ∀ a b : Key, (lut a).neighbors dA = some b → (lut b).neighbors dB = some a

/-- Neighbor symmetry for the direction pair `(dA, dB)`: links in either
direction have matching back-links. -/
def SymmPair (dA dB : Int) (lut : LUT) : Prop :=
  SymmDir dA dB lut ∧ SymmDir dB dA lut

/-- A key not yet linked in either scan direction. -/
def Fresh (dA dB : Int) (lut : LUT) (k : Key) : Prop :=
  (lut k).neighbors dA = none ∧ (lut k).neighbors dB = none

/-- States of an entity reachable from construction (`Entity.__init__`
via `setStartNode` on a non-None node) under any interleaving of the
mutating operations `setStartNode`, `update` (with any direction policy
and any tick length), `reverseDirection` and `setBetweenNodes`. -/
inductive Reaches (g : LUT) : Entity → Prop where
  | init (name : Nat) (k : Key) : Reaches g (mkEntity g name k)
  | start (e : Entity) (k : Key) : Reaches g e → Reaches g (Entity.setStartNode g e k)
  | step (e : Entity) (policy : List Int → Int) (dt : ℚ) :
      Reaches g e → Reaches g (Entity.update g policy e dt)
  | reverse (e e2 : Entity) : Reaches g e → Entity.reverseDirection e = some e2 →
      Reaches g e2
  | between (e : Entity) (d : Int) : Reaches g e → Reaches g (Entity.setBetweenNodes g e d)

/-! Concrete states used by witnesses and counterexamples. -/

/-- Spec scenario 1: a single row with two node cells joined by a path
cell. -/
def data0 : List (List Char) := [['+', '.', '+']]

/-- A graph whose every node is fresh and unlinked (an isolated vertex,
legal per spec §4.1). -/
def gIso : LUT := fun k => mkNode k

/-- An entity parked on the isolated node at the origin, facing RIGHT. -/
def eIso : Entity :=
  { name := PACMAN, direction := RIGHT, speed := 100, collideRadius := 5
    disablePortal := false, node := (0, 0), startNode := (0, 0)
    target := some (0, 0), position := ⟨0, 0⟩ }

/-- Node at the origin with a RIGHT neighbor at pixel (16, 0). -/
def nodeA : Node := setNeighbor (mkNode (0, 0)) RIGHT (some (16, 0))

/-- Node at pixel (16, 0) with a LEFT neighbor back at the origin, whose
LEFT access list has been emptied (every entity class denied), as the
home-area gating does. -/
def nodeB : Node :=
  { setNeighbor (mkNode (16, 0)) LEFT (some (0, 0)) with
    access := fun d => if d = LEFT then [] else (mkNode (16, 0)).access d }

/-- Two-node graph: origin ↔ (16, 0), with re-entry to the left denied. -/
def gAB : LUT :=
  fun k => if k = (0, 0) then nodeA else if k = (16, 0) then nodeB else mkNode k

/-- A ghost-like entity travelling RIGHT from the origin toward (16, 0),
having arrived exactly at its target. -/
def eAB : Entity :=
  { name := BLINKY, direction := RIGHT, speed := 100, collideRadius := 5
    disablePortal := false, node := (0, 0), startNode := (0, 0)
    target := some (16, 0), position := ⟨16, 0⟩ }

/-- The same traveller caught mid-segment at (8, 0). -/
def eMid : Entity := { eAB with position := ⟨8, 0⟩ }

/-! Basic unfolding lemmas. -/

theorem Vector2.add_def (a b : Vector2) : a + b = ⟨a.x + b.x, a.y + b.y⟩ := rfl

theorem Vector2.sub_def (a b : Vector2) : a - b = ⟨a.x - b.x, a.y - b.y⟩ := rfl

/-- Claim C2: `validDirection(direction)` returns True iff the direction
is not STOP, the entity's class tag is in the node's access list for the
direction, and the node has a neighbor in the direction; any single
failure yields False. -/
theorem validDirection_iff (g : LUT) (e : Entity) (d : Int) :
    Entity.validDirection g e d = true ↔
      d ≠ STOP ∧ e.name ∈ (g e.node).access d ∧ (g e.node).neighbors d ≠ none := by
  simp [Entity.validDirection, Option.isSome_iff_ne_none, and_assoc]

/-- Claim C5: `overshotTarget()` is False when the target is unset, and
otherwise is True iff the squared distance travelled from the node is at
least the squared node→target distance (equality inclusive).  The
embedding is a pure function of the state: the check changes nothing. -/
theorem overshotTarget_spec (g : LUT) (e : Entity) :
    (e.target = none → Entity.overshotTarget g e = false) ∧
    ∀ t, e.target = some t →
      (Entity.overshotTarget g e = true ↔
        (e.position - (g e.node).position).magnitudeSquared ≥
          ((g t).position - (g e.node).position).magnitudeSquared) := by
  constructor
  · intro h
    simp [Entity.overshotTarget, h]
  · intro t ht
    simp [Entity.overshotTarget, ht]

/-- Witness for C5: an entity exactly on top of its target (spec
scenario 3, the boundary case) is overshot. -/
theorem overshotTarget_spec_witness :
    eAB.target = some (16, 0) ∧ Entity.overshotTarget gAB eAB = true := by
  refine ⟨rfl, ((overshotTarget_spec gAB eAB).2 (16, 0) rfl).mpr ?_⟩
  norm_num [gAB, nodeA, nodeB, eAB, mkNode, setNeighbor, Vector2.sub_def,
    Vector2.magnitudeSquared]

/-- Claim C9: the collision test is True iff the squared distance
between the positions is at most the squared sum of the collision radii
(boundary inclusive); it is a pure function of the two positions and
radii (the embedding returns a Bool and touches no state) and is
symmetric in its arguments. -/
theorem collideCheck_spec (a b : Entity) :
    (Entity.collideCheck a b = true ↔
      (a.position - b.position).magnitudeSquared ≤
        (a.collideRadius + b.collideRadius) ^ 2) ∧
    Entity.collideCheck a b = Entity.collideCheck b a := by
  constructor
  · simp [Entity.collideCheck]
  · have h : (a.position - b.position).magnitudeSquared
        = (b.position - a.position).magnitudeSquared := by
      simp only [Vector2.sub_def, Vector2.magnitudeSquared]
      ring
    simp only [Entity.collideCheck, h, add_comm a.collideRadius]

/-- Claim C7: with a duration armed, `update(dt)` accumulates `dt` and
returns nothing below the duration; on reaching or exceeding it, the
timer resets to 0, `paused` clears, the duration clears, and the stored
callback is returned — hence at most once per armed duration (the very
next tick returns nothing) and never while the duration is unset. -/
theorem pause_update_spec {α : Type} (p : Pause α) (dt : ℚ) :
    (p.pauseTime = none → Pause.update p dt = (p, none)) ∧
    (∀ d, p.pauseTime = some d → p.timer + dt < d →
      Pause.update p dt = ({ p with timer := p.timer + dt }, none)) ∧
    (∀ d, p.pauseTime = some d → p.timer + dt ≥ d →
      Pause.update p dt =
        ({ p with timer := 0, paused := false, pauseTime := none }, p.func)) ∧
    ((Pause.update p dt).2.isSome → p.pauseTime.isSome) ∧
    (∀ d, p.pauseTime = some d → p.timer + dt ≥ d →
      ∀ dt2, (Pause.update (Pause.update p dt).1 dt2).2 = none) := by
  refine ⟨?_, ?_, ?_, ?_, ?_⟩
  · intro h
    simp [Pause.update, h]
  · intro d hd hlt
    simp [Pause.update, hd, not_le.mpr hlt]
  · intro d hd hge
    simp [Pause.update, hd, hge]
  · intro h
    unfold Pause.update at h
    cases hpt : p.pauseTime with
    | none => simp [hpt] at h
    | some d => simp [hpt]
  · intro d hd hge dt2
    simp [Pause.update, hd, hge]

/-- Witness for C7 (spec scenario 6, duration 3 ticked by 1): the first
tick only accumulates, and the tick that reaches the duration returns
the stored callback. -/
theorem pause_update_spec_witness :
    Pause.update (Pause.mk (α := Nat) true 0 (some 3) (some 42)) 1
        = (Pause.mk true 1 (some 3) (some 42), none) ∧
      Pause.update (Pause.mk (α := Nat) true 2 (some 3) (some 42)) 1
        = (Pause.mk false 0 none (some 42), some 42) := by
  constructor
  · rw [(pause_update_spec (Pause.mk true 0 (some 3) (some 42)) 1).2.1 3 rfl (by norm_num)]
    norm_num
  · rw [(pause_update_spec (Pause.mk true 2 (some 3) (some 42)) 1).2.2.1 3 rfl (by norm_num)]

/-- Membership in an access list is unchanged by denying and then
re-allowing a tag that was present: `erase` removes one occurrence of
the tag, `append` restores it, and no other tag is touched. -/
theorem mem_allowAccessL_denyAccessL (name x : Nat) (l : List Nat) (h : name ∈ l) :
    (x ∈ allowAccessL name (denyAccessL name l)) ↔ x ∈ l := by
  unfold denyAccessL allowAccessL
  simp only [h, if_true]
  by_cases hx : x = name
  · subst hx
    split <;> simp_all
  · split <;> simp [List.mem_erase_of_ne hx, hx]

/-- Claim C8: denying and then allowing access for the same (node,
direction, entity class), starting from a state where the class is
allowed, restores the original access state for that direction (access
states compared extensionally, as the sets the spec's data model
describes and the only view `validDirection` consumes). -/
theorem deny_then_allow_access (n : Node) (d : Int) (name : Nat)
    (h : name ∈ n.access d) (x : Nat) :
    (x ∈ ((n.denyAccess d name).allowAccess d name).access d) ↔ x ∈ n.access d := by
  have hd : ((n.denyAccess d name).allowAccess d name).access d
      = allowAccessL name (denyAccessL name (n.access d)) := by
    simp [Node.denyAccess, Node.allowAccess]
  rw [hd]
  exact mem_allowAccessL_denyAccessL name x (n.access d) h

/-- Witness for C8: on a fresh node, PACMAN is initially allowed UP, and
after deny-then-allow it is allowed UP again. -/
theorem deny_then_allow_access_witness :
    PACMAN ∈ (mkNode (0, 0)).access UP ∧
      PACMAN ∈ (((mkNode (0, 0)).denyAccess UP PACMAN).allowAccess UP PACMAN).access UP :=
  ⟨by decide, (deny_then_allow_access (mkNode (0, 0)) UP PACMAN (by decide) PACMAN).mpr
    (by decide)⟩

/-- Claim C3: `validDirections()` is never empty, and when no cardinal
direction both passes traversal legality and differs from the reverse of
the current direction, it is exactly the one-element list holding that
reverse direction. -/
theorem validDirections_spec (g : LUT) (e : Entity) :
    Entity.validDirections g e ≠ [] ∧
    ((∀ d ∈ [UP, DOWN, LEFT, RIGHT],
        ¬(Entity.validDirection g e d = true ∧ d ≠ e.direction * -1)) →
      Entity.validDirections g e = [e.direction * -1]) := by
  constructor
  · by_cases h : [UP, DOWN, LEFT, RIGHT].filter
        (fun d => Entity.validDirection g e d && decide (d ≠ e.direction * -1)) = []
    · simp only [Entity.validDirections, h, if_pos]
      simp
    · simp only [Entity.validDirections, if_neg h]
      exact h
  · intro hall
    have hnil : [UP, DOWN, LEFT, RIGHT].filter
        (fun d => Entity.validDirection g e d && decide (d ≠ e.direction * -1)) = [] := by
      rw [List.filter_eq_nil_iff]
      intro a ha
      have h2 := hall a ha
      simp only [Bool.and_eq_true, decide_eq_true_eq, not_and] at h2 ⊢
      tauto
    simp only [Entity.validDirections, hnil, if_pos]

/-- Witness for C3: on an isolated node (no neighbors at all) no cardinal
direction is legal, and the entity facing RIGHT gets exactly the forced
U-turn list [LEFT]. -/
theorem validDirections_spec_witness :
    Entity.validDirections gIso eIso = [eIso.direction * -1] ∧ eIso.direction * -1 = LEFT :=
  ⟨(validDirections_spec gIso eIso).2 (by decide), by decide⟩

theorem Entity.move_direction (e : Entity) (dt : ℚ) :
    (Entity.move e dt).direction = e.direction := rfl

theorem Entity.move_target (e : Entity) (dt : ℚ) :
    (Entity.move e dt).target = e.target := rfl

theorem Entity.move_node (e : Entity) (dt : ℚ) :
    (Entity.move e dt).node = e.node := rfl

/-- Helper for C1: after the player's overshoot resolution, the final
blocked-state guard (`if self.target is self.node: self.direction =
STOP`) forces direction STOP whenever the resolved target is the node. -/
theorem stop_if_blocked (g : LUT) (q : Entity)
    (h : (Entity.setPosition g
            (if q.target = some q.node then { q with direction := STOP } else q)).target
        = some (Entity.setPosition g
            (if q.target = some q.node then { q with direction := STOP } else q)).node) :
    (Entity.setPosition g
        (if q.target = some q.node then { q with direction := STOP } else q)).direction
      = STOP := by
  by_cases hq : q.target = some q.node
  · simp [Entity.setPosition, hq]
  · simp [Entity.setPosition, hq] at h

/-- Claim C1 (amended): for the player update (`PacMan.update`), on any
tick that resolves an overshoot, if the recomputed target equals the
current node then the direction is set to STOP.  (The generic
`Entity.update` has no such guard; see the counterexample.) -/
theorem pacman_blocked_direction_stop (g : LUT) (e : Entity) (input : Int) (dt : ℚ)
    (e2 : Entity)
    (hov : Entity.overshotTarget g (Entity.move e dt) = true)
    (hupd : pacmanUpdate g e input dt = some e2)
    (hblk : e2.target = some e2.node) :
    e2.direction = STOP := by
  cases ht : (Entity.move e dt).target with
  | none => simp [Entity.overshotTarget, ht] at hov
  | some tgt =>
    simp only [pacmanUpdate, ht, hov, if_true, Option.some.injEq] at hupd
    subst hupd
    exact stop_if_blocked g _ hblk

/-- Counterexample to claim C1 as stated: the generic `Entity.update`
(used by the non-player entities) never sets STOP.  A ghost-like entity
arrives at a node whose only edge back is access-denied; both target
recomputes resolve to the current node, yet the direction stays RIGHT.
The direction chooser `fun l => l.headD STOP` agrees with
`randomDirection` on the singleton candidate list that arises here. -/
theorem entityUpdate_blocked_keeps_direction :
    Entity.overshotTarget gAB (Entity.move eAB 0) = true ∧
      (Entity.update gAB (fun l => l.headD STOP) eAB 0).target
        = some (Entity.update gAB (fun l => l.headD STOP) eAB 0).node ∧
      (Entity.update gAB (fun l => l.headD STOP) eAB 0).direction ≠ STOP := by
  norm_num [Entity.update, Entity.move, Entity.overshotTarget, Entity.validDirections,
    Entity.validDirection, Entity.getNewTarget, Entity.setPosition, gAB, nodeA, nodeB,
    eAB, mkNode, setNeighbor, dirVec, Vector2.magnitudeSquared, Vector2.scale,
    Vector2.add_def, Vector2.sub_def, allNames,
    UP, DOWN, LEFT, RIGHT, STOP, PORTAL, PACMAN, BLINKY, PINKY, INKY, CLYDE, FRUIT]

/-- Witness for the amended C1: the blocked arrival of the player at the
denied node ends with direction STOP. -/
theorem pacman_blocked_direction_stop_witness :
    Entity.overshotTarget gAB (Entity.move { eAB with name := PACMAN } 0) = true ∧
      ∃ e2, pacmanUpdate gAB { eAB with name := PACMAN } STOP 0 = some e2 ∧
        e2.target = some e2.node ∧ e2.direction = STOP := by
  have hov : Entity.overshotTarget gAB (Entity.move { eAB with name := PACMAN } 0) = true := by
    norm_num [Entity.overshotTarget, Entity.move, gAB, nodeA, nodeB, eAB, mkNode,
      setNeighbor, dirVec, Vector2.scale, Vector2.add_def, Vector2.sub_def,
      Vector2.magnitudeSquared]
  have hupd : ∃ e2, pacmanUpdate gAB { eAB with name := PACMAN } STOP 0 = some e2 ∧
      e2.target = some e2.node := by
    norm_num [pacmanUpdate, Entity.move, Entity.overshotTarget, Entity.oppositeDirection,
      Entity.validDirection, Entity.getNewTarget, Entity.setPosition, gAB, nodeA, nodeB,
      eAB, mkNode, setNeighbor, dirVec, Vector2.magnitudeSquared, Vector2.scale,
      Vector2.add_def, Vector2.sub_def, allNames,
      UP, DOWN, LEFT, RIGHT, STOP, PORTAL, PACMAN, BLINKY, PINKY, INKY, CLYDE, FRUIT]
  obtain ⟨e2, h1, h2⟩ := hupd
  exact ⟨hov, e2, h1, h2, pacman_blocked_direction_stop gAB _ STOP 0 e2 hov h1 h2⟩

/-- Claim C6: when the player's tick does not overshoot and the input
direction is exactly the negative of the current (non-STOP) direction,
the update swaps node and target in place (no graph recompute), negates
the direction, and leaves the position exactly where the movement line
put it. -/
theorem pacman_reversal (g : LUT) (e : Entity) (t : Key) (input : Int) (dt : ℚ)
    (ht : e.target = some t)
    (hov : Entity.overshotTarget g (Entity.move e dt) = false)
    (hdir : e.direction ≠ STOP)
    (hinp : input = e.direction * -1) :
    pacmanUpdate g e input dt =
      some { Entity.move e dt with direction := e.direction * -1, node := t,
                                   target := some e.node } := by
  have hstop : input ≠ STOP := by
    rw [hinp]
    simp only [STOP] at hdir ⊢
    omega
  have hopp : Entity.oppositeDirection (Entity.move e dt) input = true := by
    simp [Entity.oppositeDirection, Entity.move_direction, hstop, ← hinp]
  have hmt : (Entity.move e dt).target = some t := ht
  simp only [pacmanUpdate, hmt, hov, Bool.false_eq_true, if_false, hopp, if_true,
    Entity.reverseDirection, Option.some.injEq, Entity.move_direction,
    Entity.move_node]

/-- Witness for C6: the traveller caught mid-segment between the two
linked nodes reverses in place on LEFT input. -/
theorem pacman_reversal_witness :
    Entity.overshotTarget gAB (Entity.move eMid 0) = false ∧
      pacmanUpdate gAB eMid LEFT 0 =
        some { Entity.move eMid 0 with direction := eMid.direction * -1,
                                       node := (16, 0), target := some eMid.node } := by
  have hov : Entity.overshotTarget gAB (Entity.move eMid 0) = false := by
    norm_num [Entity.overshotTarget, Entity.move, gAB, nodeA, nodeB, eMid, eAB, mkNode,
      setNeighbor, dirVec, Vector2.scale, Vector2.add_def, Vector2.sub_def,
      Vector2.magnitudeSquared]
  exact ⟨hov, pacman_reversal gAB eMid (16, 0) LEFT 0 rfl hov (by decide) (by decide)⟩

/-- Claim C10: for an entity initialized by `setStartNode` with an
actual node, the target is never unset after any sequence of
`setStartNode`, `update`, `reverseDirection` and `setBetweenNodes`
(`getNewTarget` always resolves to a neighbor or the current node), so
the target-is-None guard of `overshotTarget` is unreachable. -/
theorem reaches_target_ne_none (g : LUT) (e : Entity) (h : Reaches g e) :
    e.target ≠ none := by
  induction h with
  | init name k => simp [mkEntity, Entity.setStartNode, Entity.setPosition, Entity.setSpeed]
  | start e k _ _ => simp [Entity.setStartNode, Entity.setPosition]
  | step e policy dt _ ih =>
    cases ht : e.target with
    | none => exact absurd ht ih
    | some t =>
      have hmt : (Entity.move e dt).target = some t := ht
      simp only [Entity.update, hmt]
      by_cases hov : Entity.overshotTarget g (Entity.move e dt) = true
      · simp only [hov, if_true]
        split <;> split <;> simp [Entity.setPosition]
      · simp only [Bool.not_eq_true] at hov
        simp [hov, hmt]
  | reverse e e2 _ hrev ih =>
    cases ht : e.target with
    | none => exact absurd ht ih
    | some t =>
      simp only [Entity.reverseDirection, ht, Option.some.injEq] at hrev
      subst hrev
      simp
  | between e d _ ih =>
    unfold Entity.setBetweenNodes
    split <;> simp_all

/-- Witness for C10: a freshly constructed entity on the isolated graph
has a set target. -/
theorem reaches_target_ne_none_witness :
    (mkEntity gIso PACMAN (0, 0)).target ≠ none :=
  reaches_target_ne_none gIso _ (Reaches.init PACMAN (0, 0))

/-! Lemmas towards C4: symmetry of the linking passes. -/

theorem setNeighbor_eval (n : Node) (d : Int) (v : Option Key) (d2 : Int) :
    (setNeighbor n d v).neighbors d2 = if d2 = d then v else n.neighbors d2 := rfl

/-- Full evaluation of a `link` step on distinct keys. -/
theorem link_eval (dA dB : Int) (lut : LUT) (p c : Key) (hpc : p ≠ c) (k : Key) (d : Int) :
    ((link dA dB lut p c) k).neighbors d =
      if k = c then (if d = dB then some p else (lut c).neighbors d)
      else if k = p then (if d = dA then some c else (lut p).neighbors d)
      else (lut k).neighbors d := by
  unfold link setLUT
  by_cases hkc : k = c
  · subst hkc
    simp [setNeighbor_eval, Ne.symm hpc]
  · by_cases hkp : k = p
    · subst hkp
      simp [setNeighbor_eval, hkc]
    · simp [hkc, hkp]

/-- A `link` step only touches the two keys it links. -/
theorem link_frame_key (dA dB : Int) (lut : LUT) (p c : Key) (k : Key)
    (hkp : k ≠ p) (hkc : k ≠ c) :
    (link dA dB lut p c) k = lut k := by
  unfold link setLUT
  simp [hkp, hkc]

/-- A `link` step only touches the two directions it links. -/
theorem link_frame_dir (dA dB : Int) (lut : LUT) (p c : Key) (k : Key) (d : Int)
    (hdA : d ≠ dA) (hdB : d ≠ dB) :
    ((link dA dB lut p c) k).neighbors d = (lut k).neighbors d := by
  unfold link setLUT
  by_cases hcp : c = p <;> by_cases hkc : k = c <;> by_cases hkp : k = p <;>
    simp_all [setNeighbor_eval]

/-- Linking two distinct keys commutes with swapping the roles of the
two sides. -/
theorem link_swap (dA dB : Int) (lut : LUT) (p c : Key) (hpc : p ≠ c) :
    link dA dB lut p c = link dB dA lut c p := by
  funext k
  unfold link setLUT
  by_cases hkc : k = c <;> by_cases hkp : k = p <;>
    simp_all [setNeighbor_eval, Ne.symm hpc]

/-- A `link` step preserves the directed symmetry invariant, provided
the freshly linked key has no incoming `dB` link yet and the pending key
has no outgoing `dA` link yet. -/
theorem link_symmDir (dA dB : Int) (lut : LUT) (p c : Key)
    (hne : dA ≠ dB) (hpc : p ≠ c)
    (h1 : SymmDir dA dB lut) (hc : (lut c).neighbors dB = none) :
    SymmDir dA dB (link dA dB lut p c) := by
  intro a b h
  rw [link_eval dA dB lut p c hpc] at h
  rw [link_eval dA dB lut p c hpc]
  by_cases hac : a = c
  · rw [if_pos hac, if_neg hne] at h
    have hb := h1 _ _ h
    by_cases hbc : b = c
    · rw [hbc, hc] at hb
      simp at hb
    · rw [if_neg hbc]
      by_cases hbp : b = p
      · rw [hbp] at hb
        rw [if_pos hbp, if_neg (Ne.symm hne), hac]
        exact hb
      · rw [if_neg hbp, hac]
        exact hb
  · rw [if_neg hac] at h
    by_cases hap : a = p
    · rw [if_pos hap, if_pos rfl] at h
      have hbc : c = b := Option.some.inj h
      rw [← hbc, if_pos rfl, if_pos rfl, hap]
    · rw [if_neg hap] at h
      have hb := h1 _ _ h
      by_cases hbc : b = c
      · rw [hbc, hc] at hb
        simp at hb
      · rw [if_neg hbc]
        by_cases hbp : b = p
        · rw [hbp] at hb
          rw [if_pos hbp, if_neg (Ne.symm hne)]
          exact hb
        · rw [if_neg hbp]
          exact hb

/-- A `link` step preserves the full symmetry invariant for its
direction pair, given both linked endpoints are still fresh on the sides
being written. -/
theorem link_symmPair (dA dB : Int) (lut : LUT) (p c : Key)
    (hne : dA ≠ dB) (hpc : p ≠ c)
    (hs : SymmPair dA dB lut)
    (hp : (lut p).neighbors dA = none) (hc : (lut c).neighbors dB = none) :
    SymmPair dA dB (link dA dB lut p c) := by
  constructor
  · exact link_symmDir dA dB lut p c hne hpc hs.1 hc
  · rw [link_swap dA dB lut p c hpc]
    exact link_symmDir dB dA lut c p (Ne.symm hne) (Ne.symm hpc) hs.2 hp

/-- A line scan leaves every key untouched that is neither the pending
key nor reachable by `keyOf` from the current position onward. -/
theorem scanLine_frame_key (dA dB : Int) (keyOf : Int → Key) (cells : List Char) :
    ∀ (lut : LUT) (pending : Option Key) (i : Int) (k : Key),
      (∀ j : Int, i ≤ j → keyOf j ≠ k) →
      (∀ p : Key, pending = some p → p ≠ k) →
      (scanLine dA dB keyOf lut pending i cells) k = lut k := by
  induction cells with
  | nil =>
    intro lut pending i k _ _
    rfl
  | cons c rest ih =>
    intro lut pending i k hk hp
    simp only [scanLine]
    by_cases hc : c ∈ nodeSymbols
    · rw [if_pos hc]
      cases pending with
      | none =>
        apply ih
        · intro j hj
          exact hk j (by omega)
        · intro p hp2
          rw [(Option.some.inj hp2).symm]
          exact hk i le_rfl
      | some p =>
        show scanLine dA dB keyOf (link dA dB lut p (keyOf i)) (some (keyOf i)) (i + 1) rest k
          = lut k
        rw [ih _ _ _ _ (fun j hj => hk j (by omega))
          (fun q hq => ((Option.some.inj hq).symm ▸ hk i le_rfl))]
        exact link_frame_key dA dB lut p (keyOf i) k
          (Ne.symm (hp p rfl)) (Ne.symm (hk i le_rfl))
    · by_cases hc2 : c ∈ pathSymbols
      · rw [if_neg hc, if_pos hc2]
        apply ih
        · intro j hj
          exact hk j (by omega)
        · exact hp
      · rw [if_neg hc, if_neg hc2]
        apply ih
        · intro j hj
          exact hk j (by omega)
        · intro p hp2
          simp at hp2

/-- A line scan for the direction pair `(dA, dB)` leaves every other
direction of every node untouched. -/
theorem scanLine_frame_dir (dA dB : Int) (keyOf : Int → Key) (cells : List Char) :
    ∀ (lut : LUT) (pending : Option Key) (i : Int) (k : Key) (d : Int),
      d ≠ dA → d ≠ dB →
      ((scanLine dA dB keyOf lut pending i cells) k).neighbors d = (lut k).neighbors d := by
  induction cells with
  | nil =>
    intro lut pending i k d _ _
    rfl
  | cons c rest ih =>
    intro lut pending i k d h1 h2
    simp only [scanLine]
    by_cases hc : c ∈ nodeSymbols
    · rw [if_pos hc]
      cases pending with
      | none => exact ih lut _ _ k d h1 h2
      | some p =>
        show ((scanLine dA dB keyOf (link dA dB lut p (keyOf i)) (some (keyOf i)) (i + 1)
            rest) k).neighbors d = (lut k).neighbors d
        rw [ih _ _ _ k d h1 h2]
        exact link_frame_dir dA dB lut p (keyOf i) k d h1 h2
    · by_cases hc2 : c ∈ pathSymbols
      · rw [if_neg hc, if_pos hc2]
        exact ih lut _ _ k d h1 h2
      · rw [if_neg hc, if_neg hc2]
        exact ih lut _ _ k d h1 h2

/-- Invariant of one linking line scan: starting from a symmetric table
in which every key the scan may link is fresh, the scan preserves
symmetry for its direction pair. -/
theorem scanLine_symmPair (dA dB : Int) (hne : dA ≠ dB) (keyOf : Int → Key)
    (hinj : ∀ i j : Int, keyOf i = keyOf j → i = j) (cells : List Char) :
    ∀ (lut : LUT) (pending : Option Key) (i : Int),
      SymmPair dA dB lut →
      (∀ j : Int, i ≤ j → Fresh dA dB lut (keyOf j)) →
      (∀ p : Key, pending = some p →
        (lut p).neighbors dA = none ∧ ∀ j : Int, i ≤ j → keyOf j ≠ p) →
      SymmPair dA dB (scanLine dA dB keyOf lut pending i cells) := by
  induction cells with
  | nil =>
    intro lut pending i hs _ _
    exact hs
  | cons c rest ih =>
    intro lut pending i hs hfresh hpend
    simp only [scanLine]
    by_cases hc : c ∈ nodeSymbols
    · rw [if_pos hc]
      cases pending with
      | none =>
        apply ih
        · exact hs
        · intro j hj
          exact hfresh j (by omega)
        · intro p hp2
          rw [(Option.some.inj hp2).symm]
          refine ⟨(hfresh i le_rfl).1, ?_⟩
          intro j hj heq
          have := hinj j i heq
          omega
      | some p =>
        have hpe := hpend p rfl
        have hpc : p ≠ keyOf i := Ne.symm (hpe.2 i le_rfl)
        apply ih
        · exact link_symmPair dA dB lut p (keyOf i) hne hpc hs hpe.1 (hfresh i le_rfl).2
        · intro j hj
          have hj1 : i ≤ j := by omega
          have hne1 : keyOf j ≠ p := hpe.2 j hj1
          have hne2 : keyOf j ≠ keyOf i := by
            intro heq
            have := hinj j i heq
            omega
          unfold Fresh
          rw [link_frame_key dA dB lut p (keyOf i) (keyOf j) hne1 hne2]
          exact hfresh j hj1
        · intro q hq
          rw [(Option.some.inj hq).symm]
          constructor
          · rw [link_eval dA dB lut p (keyOf i) hpc, if_pos rfl, if_neg hne]
            exact (hfresh i le_rfl).1
          · intro j hj heq
            have := hinj j i heq
            omega
    · by_cases hc2 : c ∈ pathSymbols
      · rw [if_neg hc, if_pos hc2]
        apply ih
        · exact hs
        · intro j hj
          exact hfresh j (by omega)
        · intro p hp2
          have hpe := hpend p hp2
          exact ⟨hpe.1, fun j hj => hpe.2 j (by omega)⟩
      · rw [if_neg hc, if_neg hc2]
        apply ih
        · exact hs
        · intro j hj
          exact hfresh j (by omega)
        · intro p hp2
          simp at hp2

/-- The line-by-line linking pass for one direction pair leaves all
other directions untouched. -/
theorem connectLines_frame_dir (dA dB : Int) (keyOf2 : Int → Int → Key)
    (lines : List (List Char)) :
    ∀ (lut : LUT) (r : Int) (k : Key) (d : Int), d ≠ dA → d ≠ dB →
      ((connectLines dA dB keyOf2 lut r lines) k).neighbors d = (lut k).neighbors d := by
  induction lines with
  | nil =>
    intro lut r k d _ _
    rfl
  | cons line rest ih =>
    intro lut r k d h1 h2
    simp only [connectLines]
    rw [ih _ _ k d h1 h2]
    exact scanLine_frame_dir dA dB (keyOf2 r) line lut none 0 k d h1 h2

/-- The line-by-line linking pass preserves symmetry for its direction
pair when all its keys start fresh and distinct lines use disjoint
keys. -/
theorem connectLines_symmPair (dA dB : Int) (hne : dA ≠ dB) (keyOf2 : Int → Int → Key)
    (hinj : ∀ r i j : Int, keyOf2 r i = keyOf2 r j → i = j)
    (hdisj : ∀ r r2 i j : Int, r ≠ r2 → keyOf2 r i ≠ keyOf2 r2 j)
    (lines : List (List Char)) :
    ∀ (lut : LUT) (r : Int),
      SymmPair dA dB lut →
      (∀ r2 : Int, r ≤ r2 → ∀ i : Int, Fresh dA dB lut (keyOf2 r2 i)) →
      SymmPair dA dB (connectLines dA dB keyOf2 lut r lines) := by
  induction lines with
  | nil =>
    intro lut r hs _
    exact hs
  | cons line rest ih =>
    intro lut r hs hfresh
    simp only [connectLines]
    apply ih
    · exact scanLine_symmPair dA dB hne (keyOf2 r) (hinj r) line lut none 0 hs
        (fun j _ => hfresh r le_rfl j) (fun p hp => by simp at hp)
    · intro r2 hr2 i
      unfold Fresh
      rw [scanLine_frame_key dA dB (keyOf2 r) line lut none 0 (keyOf2 r2 i)
        (fun j _ => hdisj r r2 j i (by omega)) (fun p hp => by simp at hp)]
      exact hfresh r2 (by omega) i

/-- Vertex creation inserts only fresh unlinked nodes: starting from an
all-unlinked table, every node of the table built by one row of
`create_node_table` is still unlinked. -/
theorem createRow_neighbors_none (xoff yoff r : Int) (cells : List Char) :
    ∀ (lut : LUT) (i : Int),
      (∀ k d, (lut k).neighbors d = none) →
      ∀ k d, ((createRow xoff yoff r lut i cells) k).neighbors d = none := by
  induction cells with
  | nil =>
    intro lut i h k d
    exact h k d
  | cons c rest ih =>
    intro lut i h k d
    simp only [createRow]
    apply ih
    intro k2 d2
    by_cases hc : c ∈ nodeSymbols
    · rw [if_pos hc]
      unfold setLUT
      split
      · rfl
      · exact h k2 d2
    · rw [if_neg hc]
      exact h k2 d2

/-- Vertex creation over the whole grid keeps every node unlinked. -/
theorem createTableAux_neighbors_none (xoff yoff : Int) (rows : List (List Char)) :
    ∀ (lut : LUT) (r : Int),
      (∀ k d, (lut k).neighbors d = none) →
      ∀ k d, ((createTableAux xoff yoff lut r rows) k).neighbors d = none := by
  induction rows with
  | nil =>
    intro lut r h k d
    exact h k d
  | cons row rest ih =>
    intro lut r h k d
    simp only [createTableAux]
    exact ih _ _ (createRow_neighbors_none xoff yoff r row lut 0 h) k d

/-- Directed symmetry transfers along pointwise agreement of the two
relevant neighbor directions. -/
theorem symmDir_congr (dA dB : Int) (lut lut2 : LUT)
    (h : ∀ k : Key, (lut2 k).neighbors dA = (lut k).neighbors dA ∧
                    (lut2 k).neighbors dB = (lut k).neighbors dB)
    (hs : SymmDir dA dB lut) : SymmDir dA dB lut2 := by
  intro a b hab
  rw [(h b).2]
  apply hs a b
  rw [← (h a).1]
  exact hab

/-- Claim C4: after NodeGroup construction (vertex creation plus
horizontal and vertical linking, before any portal pairing), neighbor
links are symmetric: whenever `A.neighbors[d] = B` for a cardinal
direction `d`, also `B.neighbors[opposite(d)] = A` (with `opposite(d) =
d * -1` in the direction encoding). -/
theorem buildGraph_neighbor_symm (data : List (List Char)) (a b : Key) (d : Int)
    (hd : d = UP ∨ d = DOWN ∨ d = LEFT ∨ d = RIGHT)
    (h : ((buildGraph data) a).neighbors d = some b) :
    ((buildGraph data) b).neighbors (d * -1) = some a := by
  have h0 : ∀ (k : Key) (dd : Int),
      ((createTable 0 0 data emptyLUT) k).neighbors dd = none :=
    createTableAux_neighbors_none 0 0 data emptyLUT 0 (fun _ _ => rfl)
  have hinjH : ∀ r i j : Int,
      constructKey (i + 0) (r + 0) = constructKey (j + 0) (r + 0) → i = j := by
    intro r i j heq
    simp [constructKey, TILEWIDTH, TILEHEIGHT, Prod.ext_iff] at heq
    omega
  have hdisjH : ∀ r r2 i j : Int, r ≠ r2 →
      constructKey (i + 0) (r + 0) ≠ constructKey (j + 0) (r2 + 0) := by
    intro r r2 i j hne heq
    simp [constructKey, TILEWIDTH, TILEHEIGHT, Prod.ext_iff] at heq
    omega
  have hinjV : ∀ r i j : Int,
      constructKey (r + 0) (i + 0) = constructKey (r + 0) (j + 0) → i = j := by
    intro r i j heq
    simp [constructKey, TILEWIDTH, TILEHEIGHT, Prod.ext_iff] at heq
    omega
  have hdisjV : ∀ r r2 i j : Int, r ≠ r2 →
      constructKey (r + 0) (i + 0) ≠ constructKey (r2 + 0) (j + 0) := by
    intro r r2 i j hne heq
    simp [constructKey, TILEWIDTH, TILEHEIGHT, Prod.ext_iff] at heq
    omega
  have hSymm0 : SymmPair RIGHT LEFT (createTable 0 0 data emptyLUT) := by
    constructor <;>
      · intro x y hxy
        rw [h0] at hxy
        cases hxy
  have hH : SymmPair RIGHT LEFT
      (connectHorizontally 0 0 data (createTable 0 0 data emptyLUT)) := by
    unfold connectHorizontally
    exact connectLines_symmPair RIGHT LEFT (by decide) _ hinjH hdisjH data _ 0
      hSymm0 (fun r2 _ i => ⟨h0 _ _, h0 _ _⟩)
  have hUD : ∀ (k : Key) (dd : Int), dd ≠ RIGHT → dd ≠ LEFT →
      ((connectHorizontally 0 0 data (createTable 0 0 data emptyLUT)) k).neighbors dd
        = none := by
    intro k dd h1 h2
    unfold connectHorizontally
    rw [connectLines_frame_dir RIGHT LEFT _ data _ 0 k dd h1 h2]
    exact h0 k dd
  have hSymmV0 : SymmPair DOWN UP
      (connectHorizontally 0 0 data (createTable 0 0 data emptyLUT)) := by
    constructor <;>
      · intro x y hxy
        rw [hUD x _ (by decide) (by decide)] at hxy
        cases hxy
  have hV : SymmPair DOWN UP (buildGraph data) := by
    unfold buildGraph connectVertically
    exact connectLines_symmPair DOWN UP (by decide) _ hinjV hdisjV data.transpose _ 0
      hSymmV0 (fun r2 _ i =>
        ⟨hUD _ _ (by decide) (by decide), hUD _ _ (by decide) (by decide)⟩)
  have hframe : ∀ k : Key,
      ((buildGraph data) k).neighbors RIGHT
          = ((connectHorizontally 0 0 data (createTable 0 0 data emptyLUT)) k).neighbors
            RIGHT ∧
        ((buildGraph data) k).neighbors LEFT
          = ((connectHorizontally 0 0 data (createTable 0 0 data emptyLUT)) k).neighbors
            LEFT := by
    intro k
    unfold buildGraph connectVertically
    constructor
    · exact connectLines_frame_dir DOWN UP _ data.transpose _ 0 k RIGHT (by decide)
        (by decide)
    · exact connectLines_frame_dir DOWN UP _ data.transpose _ 0 k LEFT (by decide)
        (by decide)
  have hRL : SymmPair RIGHT LEFT (buildGraph data) :=
    ⟨symmDir_congr RIGHT LEFT _ _ hframe hH.1,
     symmDir_congr LEFT RIGHT _ _ (fun k => ⟨(hframe k).2, (hframe k).1⟩) hH.2⟩
  rcases hd with hd | hd | hd | hd <;> rw [hd] at h ⊢
  · rw [show UP * -1 = DOWN by decide]
    exact hV.2 a b h
  · rw [show DOWN * -1 = UP by decide]
    exact hV.1 a b h
  · rw [show LEFT * -1 = RIGHT by decide]
    exact hRL.2 a b h
  · rw [show RIGHT * -1 = LEFT by decide]
    exact hRL.1 a b h

/-- Witness for C4 on spec scenario 1 (two node cells joined by a path
cell): the construction links them RIGHT/LEFT and the theorem returns
the back-link. -/
theorem buildGraph_neighbor_symm_witness :
    (RIGHT = UP ∨ RIGHT = DOWN ∨ RIGHT = LEFT ∨ RIGHT = RIGHT) ∧
      ((buildGraph data0) (0, 0)).neighbors RIGHT = some (32, 0) ∧
      ((buildGraph data0) (32, 0)).neighbors (RIGHT * -1) = some (0, 0) :=
  ⟨by decide, by decide,
    buildGraph_neighbor_symm data0 (0, 0) (32, 0) RIGHT (by decide) (by decide)⟩

end PyMan
